import Mathlib

/-!
Verification of the group listening-overlap analytics engine of the
last-collage-discord-bot repository.

The engine lives in `src/src/services/summary_service.py` (data extraction,
pairwise overlap, group summary) and `src/src/formatters/summary_formatter.py`
(text rendering).  Python sets and dicts are modelled as association lists:
the list order stands for the container's iteration order (Python dicts and
Counters are insertion-ordered; the keys of a dict are unique by
construction, which is tracked by explicit `Nodup` facts where needed).
Playcounts and counts are modelled as `Nat`, matching the documented
invariant that playcounts are non-negative.
-/

namespace LastCollage

/-! ### Data model (src/src/models.py)

Only the fields read by the engine are modelled: `ArtistModel.name`,
`AlbumModel.artist`/`.name`, `TrackModel.artist`/`.name`/`.playcount`. -/

structure ArtistModel where
  name : String
  playcount : Nat
deriving DecidableEq

structure TopArtistsModel where
  artists : List ArtistModel
deriving DecidableEq

structure AlbumModel where
  name : String
  artist : String
  playcount : Nat
deriving DecidableEq

structure TopAlbumsModel where
  albums : List AlbumModel
deriving DecidableEq

structure TrackModel where
  name : String
  artist : String
  playcount : Nat
deriving DecidableEq

structure TopTracksModel where
  tracks : List TrackModel
deriving DecidableEq

/-! ### Association-list primitives modelling Python dict / set / Counter -/

/-- Python `d[k]` lookup on an insertion-ordered dict modelled as an
association list: value of the first entry whose key is `k`. -/
def lookup? {K V : Type} [DecidableEq K] (d : List (K × V)) (k : K) : Option V :=
  (d.find? fun p => decide (p.1 = k)).map (fun p => p.2)

/-- Python `k in d`. -/
def containsKey {K V : Type} [DecidableEq K] (d : List (K × V)) (k : K) : Bool :=
  (lookup? d k).isSome

/-- Python `d[k] = v` on a dict: an existing key keeps its position and gets
the new value, a new key is appended at the end. -/
def dictInsert {K V : Type} [DecidableEq K] (d : List (K × V)) (k : K) (v : V) :
    List (K × V) :=
  if containsKey d k then d.map (fun p => if p.1 = k then (p.1, v) else p)
  else d ++ [(k, v)]

/-- Python `d[k] += n` on a dict whose key `k` is already present (the only
way the engine uses it); an absent key is left alone, a case the engine
never reaches because the dict is pre-seeded with every key. -/
def dictIncr {K : Type} [DecidableEq K] (d : List (K × Nat)) (k : K) (n : Nat) :
    List (K × Nat) :=
  d.map (fun p => if p.1 = k then (p.1, p.2 + n) else p)

/-- Python `Counter` read: a missing key counts 0. -/
def counterGet {K : Type} [DecidableEq K] (d : List (K × Nat)) (k : K) : Nat :=
  (lookup? d k).getD 0

/-- Python `counter[k] += n`: a missing key starts from the default 0 and is
appended at the end, an existing key keeps its position. -/
def counterAdd {K : Type} [DecidableEq K] (d : List (K × Nat)) (k : K) (n : Nat) :
    List (K × Nat) :=
  if containsKey d k then dictIncr d k n else d ++ [(k, n)]

/-- Python `s.add`-style set construction: a set comprehension keeps the
first occurrence of each element. -/
def setInsert {K : Type} [DecidableEq K] (s : List K) (k : K) : List K :=
  if k ∈ s then s else s ++ [k]

/-- Builds a Python set from a traversal, deduplicating. -/
def setOfList {K : Type} [DecidableEq K] (l : List K) : List K :=
  l.foldl setInsert []

/-! ### summary_service.py: data classes -/

/-- `UserListeningData` (summary_service.py lines 10-15). -/
structure UserListeningData where
  display_name : String
  artists : List String
  albums : List (String × String)
  tracks : List ((String × String) × Nat)
deriving DecidableEq

/-- `PairOverlap` (summary_service.py lines 18-24). -/
structure PairOverlap where
  user_a : String
  user_b : String
  shared_artists : List String
  shared_albums : List (String × String)
  shared_tracks : List (String × String)
deriving DecidableEq

/-- `PairOverlap.total_shared` (summary_service.py lines 26-30). -/
def PairOverlap.total_shared (p : PairOverlap) : Nat :=
  p.shared_artists.length + p.shared_albums.length + p.shared_tracks.length

/-- `GroupSummary` (summary_service.py lines 33-41); the popular lists carry
`(label, listener_count)` pairs, exactly as `compute_group_summary`
produces them. -/
structure GroupSummary where
  most_overlapping : Option PairOverlap
  biggest_outlier : Option String
  popular_artists : List (String × Nat)
  popular_albums : List (String × Nat)
  popular_tracks : List (String × Nat)
  hidden_gem : Option (String × String × Nat)
  user_count : Nat
deriving DecidableEq

/-! ### summary_service.py: extract_listening_data (lines 44-66) -/

def extract_listening_data (display_name : String)
    (top_artists : Option TopArtistsModel) (top_albums : Option TopAlbumsModel)
    (top_tracks : Option TopTracksModel) : UserListeningData :=
  let artists : List String :=
    match top_artists with
    | some ta => setOfList (ta.artists.map (fun a => a.name))
    | none => []
  let albums : List (String × String) :=
    match top_albums with
    | some tal => setOfList (tal.albums.map (fun a => (a.artist, a.name)))
    | none => []
  let tracks : List ((String × String) × Nat) :=
    match top_tracks with
    | some tt => tt.tracks.foldl
        (fun d t => dictInsert d (t.artist, t.name) t.playcount) []
    | none => []
  { display_name := display_name, artists := artists, albums := albums,
    tracks := tracks }

/-! ### summary_service.py: compute_pair_overlap (lines 69-76) -/

/-- Python set intersection `s & t` on sets modelled as lists: the elements
of `s` also present in `t`. -/
def pyIntersect {α : Type} [DecidableEq α] (l l' : List α) : List α :=
  l.filter (fun x => decide (x ∈ l'))

def compute_pair_overlap (a b : UserListeningData) : PairOverlap :=
  { user_a := a.display_name
    user_b := b.display_name
    shared_artists := pyIntersect a.artists b.artists
    shared_albums := pyIntersect a.albums b.albums
    shared_tracks := pyIntersect (a.tracks.map Prod.fst)
      (b.tracks.map Prod.fst) }

/-! ### summary_service.py: compute_group_summary (lines 79-159) -/

/-- `itertools.combinations(l, 2)`: all unordered pairs in input order,
first component earlier in the list. -/
def combinations2 {α : Type} : List α → List (α × α)
  | [] => []
  | x :: xs => (xs.map (fun y => (x, y))) ++ combinations2 xs

/-- Python `{u.display_name: 0 for u in users}` (line 93). -/
def initScores (users : List UserListeningData) : List (String × Nat) :=
  users.foldl (fun d u => dictInsert d u.display_name 0) []

/-- One iteration of the pairwise loop (lines 95-101): the accumulator is
the pair (best_overlap, overlap_scores). -/
def pairStep (st : Option PairOverlap × List (String × Nat))
    (ab : UserListeningData × UserListeningData) :
    Option PairOverlap × List (String × Nat) :=
  let overlap := compute_pair_overlap ab.1 ab.2
  if 0 < overlap.total_shared then
    (match st.1 with
     | none => some overlap
     | some b =>
         if b.total_shared < overlap.total_shared then some overlap else some b,
     dictIncr (dictIncr st.2 ab.1.display_name overlap.total_shared)
       ab.2.display_name overlap.total_shared)
  else st

/-- The whole pairwise loop (lines 92-101). -/
def overlapPass (users : List UserListeningData) :
    Option PairOverlap × List (String × Nat) :=
  (combinations2 users).foldl pairStep (none, initScores users)

/-- One step of Python `min` over dict keys: the current best is replaced
only on a strictly smaller value, so the first minimum wins. -/
def minStep (acc : Option (String × Nat)) (p : String × Nat) :
    Option (String × Nat) :=
  match acc with
  | none => some p
  | some q => if p.2 < q.2 then some p else some q

/-- Python `min(overlap_scores, key=lambda k: overlap_scores[k])` (line 106):
the first entry achieving the minimal value; the whole entry is kept here,
the caller projects out the key. -/
def minByValue (d : List (String × Nat)) : Option (String × Nat) :=
  d.foldl minStep none

/-- Python f-string `f"{x} - {y}"` used for album and track labels
(lines 123 and 125). -/
def pairLabel (t : String × String) : String :=
  t.1 ++ " - " ++ t.2

/-- The four aggregation containers of the popularity pass
(lines 112-117). -/
structure PopAcc where
  artist_counter : List (String × Nat)
  album_counter : List (String × Nat)
  track_counter : List (String × Nat)
  track_plays : List ((String × String) × (String × Nat))
deriving DecidableEq

/-- One user's contribution to the popularity pass (lines 119-129). -/
def popStep (acc : PopAcc) (u : UserListeningData) : PopAcc :=
  let ac := u.artists.foldl (fun c a => counterAdd c a 1) acc.artist_counter
  let alc := u.albums.foldl (fun c a => counterAdd c (pairLabel a) 1)
    acc.album_counter
  let tstep := u.tracks.foldl
    (fun (p : List (String × Nat) × List ((String × String) × (String × Nat)))
        t =>
      let tc := counterAdd p.1 (pairLabel t.1) 1
      let tp := if containsKey p.2 t.1 then p.2
        else p.2 ++ [(t.1, (u.display_name, t.2))]
      (tc, tp))
    (acc.track_counter, acc.track_plays)
  ⟨ac, alc, tstep.1, tstep.2⟩

/-- The popularity pass over all users (lines 112-129). -/
def popAccumulate (users : List UserListeningData) : PopAcc :=
  users.foldl popStep ⟨[], [], [], []⟩

/-- Stable insertion, descending by count: the new element goes after every
element with a strictly larger or equal position priority, i.e. after every
element with a strictly larger count and, combined with `mostCommon` below,
also after every earlier-inserted element of equal count. -/
def insertCountDesc (x : String × Nat) :
    List (String × Nat) → List (String × Nat)
  | [] => [x]
  | y :: ys => if x.2 < y.2 then y :: insertCountDesc x ys else x :: y :: ys

/-- Python `Counter.most_common()`: entries sorted by count descending,
equal counts keeping insertion order (CPython uses a stable sort). -/
def mostCommon (c : List (String × Nat)) : List (String × Nat) :=
  c.foldr insertCountDesc []

/-- One iteration of the hidden-gem loop (lines 144-149): a track-plays
entry qualifies when its label is tallied exactly once and its playcount
exceeds 10; the tracker is replaced only on a strictly larger playcount. -/
def gemStep (tc : List (String × Nat)) (g : Option (String × String × Nat))
    (e : (String × String) × (String × Nat)) : Option (String × String × Nat) :=
  if counterGet tc (pairLabel e.1) = 1 ∧ 10 < e.2.2 then
    match g with
    | none => some (e.2.1, pairLabel e.1, e.2.2)
    | some g' =>
        if g'.2.2 < e.2.2 then some (e.2.1, pairLabel e.1, e.2.2) else some g'
  else g

def compute_group_summary (users : List UserListeningData) : GroupSummary :=
  if users.isEmpty then
    { most_overlapping := none, biggest_outlier := none, popular_artists := [],
      popular_albums := [], popular_tracks := [], hidden_gem := none,
      user_count := 0 }
  else
    let pass := overlapPass users
    let best_overlap := pass.1
    let overlap_scores := pass.2
    let biggest_outlier : Option String :=
      if 2 ≤ users.length then
        match minByValue overlap_scores with
        | none => none
        | some m =>
            if overlap_scores.all
                (fun p => p.2 == counterGet overlap_scores m.1) then none
            else some m.1
      else none
    let acc := popAccumulate users
    let popular_artists :=
      (mostCommon acc.artist_counter).filter (fun p => decide (2 ≤ p.2))
    let popular_albums :=
      (mostCommon acc.album_counter).filter (fun p => decide (2 ≤ p.2))
    let popular_tracks :=
      (mostCommon acc.track_counter).filter (fun p => decide (2 ≤ p.2))
    let hidden_gem := acc.track_plays.foldl (gemStep acc.track_counter) none
    { most_overlapping := best_overlap, biggest_outlier := biggest_outlier,
      popular_artists := popular_artists, popular_albums := popular_albums,
      popular_tracks := popular_tracks, hidden_gem := hidden_gem,
      user_count := users.length }

/-! ### Fold reasoning helpers -/

/-- First-argmax step shared by the best-pair tracker (summary_service.py
lines 100-101) and the hidden-gem tracker (lines 148-149): the tracker is
replaced only on a strictly larger measure, never on equality. -/
def chooseStep {α : Type} (c : α → Prop) [DecidablePred c] (m : α → Nat)
    (acc : Option α) (x : α) : Option α :=
  if c x then
    match acc with
    | none => some x
    | some b => if m b < m x then some x else some b
  else acc

/-- What the first-argmax fold computes: `none` when no element qualifies,
otherwise a qualifying element of maximal measure such that every earlier
element with a qualifying measure is strictly smaller. -/
def ChooseGood {α : Type} (c : α → Prop) (m : α → Nat) (l : List α) :
    Option α → Prop
  | none => ∀ x ∈ l, ¬ c x
  | some b => c b ∧ (∀ x ∈ l, c x → m x ≤ m b) ∧
      ∃ l₁ l₂, l = l₁ ++ b :: l₂ ∧ ∀ x ∈ l₁, c x → m x < m b

theorem chooseStep_good {α : Type} (c : α → Prop) [DecidablePred c]
    (m : α → Nat) {l : List α} {acc : Option α} (x : α)
    (h : ChooseGood c m l acc) :
    ChooseGood c m (l ++ [x]) (chooseStep c m acc x) := by
  unfold chooseStep
  by_cases hc : c x
  · rw [if_pos hc]
    cases acc with
    | none =>
        simp only [ChooseGood] at h ⊢
        refine ⟨hc, ?_, l, [], by simp, ?_⟩
        · intro y hy hcy
          rcases List.mem_append.mp hy with hy | hy
          · exact absurd hcy (h y hy)
          · simp only [List.mem_singleton] at hy; subst hy; exact le_refl _
        · intro y hy hcy; exact absurd hcy (h y hy)
    | some b =>
        simp only [ChooseGood] at h ⊢
        obtain ⟨hcb, hmax, l₁, l₂, hdec, hstrict⟩ := h
        by_cases hlt : m b < m x
        · rw [if_pos hlt]
          refine ⟨hc, ?_, l, [], by simp, ?_⟩
          · intro y hy hcy
            rcases List.mem_append.mp hy with hy | hy
            · exact le_of_lt (lt_of_le_of_lt (hmax y hy hcy) hlt)
            · simp only [List.mem_singleton] at hy; subst hy; exact le_refl _
          · intro y hy hcy
            exact lt_of_le_of_lt (hmax y hy hcy) hlt
        · rw [if_neg hlt]
          refine ⟨hcb, ?_, l₁, l₂ ++ [x], by rw [hdec]; simp, hstrict⟩
          intro y hy hcy
          rcases List.mem_append.mp hy with hy | hy
          · exact hmax y hy hcy
          · simp only [List.mem_singleton] at hy; subst hy
            exact le_of_not_lt hlt
  · rw [if_neg hc]
    cases acc with
    | none =>
        simp only [ChooseGood] at h ⊢
        intro y hy
        rcases List.mem_append.mp hy with hy | hy
        · exact h y hy
        · simp only [List.mem_singleton] at hy; subst hy; exact hc
    | some b =>
        simp only [ChooseGood] at h ⊢
        obtain ⟨hcb, hmax, l₁, l₂, hdec, hstrict⟩ := h
        refine ⟨hcb, ?_, l₁, l₂ ++ [x], by rw [hdec]; simp, hstrict⟩
        intro y hy hcy
        rcases List.mem_append.mp hy with hy | hy
        · exact hmax y hy hcy
        · simp only [List.mem_singleton] at hy; subst hy; exact absurd hcy hc

theorem chooseFold_good {α : Type} (c : α → Prop) [DecidablePred c]
    (m : α → Nat) (l : List α) :
    ChooseGood c m l (l.foldl (chooseStep c m) none) := by
  induction l using List.reverseRecOn with
  | nil => intro x hx; simp at hx
  | append_singleton l x ih =>
      rw [List.foldl_append]
      exact chooseStep_good c m x ih

theorem chooseFold_none_iff {α : Type} (c : α → Prop) [DecidablePred c]
    (m : α → Nat) (l : List α) :
    l.foldl (chooseStep c m) none = none ↔ ∀ x ∈ l, ¬ c x := by
  have h := chooseFold_good c m l
  cases heq : l.foldl (chooseStep c m) none with
  | none => rw [heq] at h; simpa using h
  | some b =>
      rw [heq] at h
      simp only [ChooseGood] at h
      obtain ⟨hcb, _, l₁, l₂, hdec, _⟩ := h
      constructor
      · intro habs; exact absurd habs (by simp)
      · intro hall
        exact absurd hcb (hall b (by rw [hdec]; simp))

theorem chooseFold_some {α : Type} (c : α → Prop) [DecidablePred c]
    (m : α → Nat) (l : List α) (b : α)
    (h : l.foldl (chooseStep c m) none = some b) :
    c b ∧ (∀ x ∈ l, c x → m x ≤ m b) ∧
      ∃ l₁ l₂, l = l₁ ++ b :: l₂ ∧ ∀ x ∈ l₁, c x → m x < m b := by
  have hg := chooseFold_good c m l
  rw [h] at hg
  exact hg

/-- A fold whose step acts componentwise on a pair splits into two folds. -/
theorem foldl_prod_split {α β γ : Type} (g : α × β → γ → α × β)
    (g₁ : α → γ → α) (g₂ : β → γ → β)
    (hg : ∀ st x, g st x = (g₁ st.1 x, g₂ st.2 x)) :
    ∀ (l : List γ) (a : α) (b : β),
      l.foldl g (a, b) = (l.foldl g₁ a, l.foldl g₂ b) := by
  intro l
  induction l with
  | nil => intro a b; rfl
  | cons x xs ih =>
      intro a b
      simp only [List.foldl_cons, hg]
      exact ih _ _

/-! ### Decomposing the pairwise loop -/

/-- The pairwise overlaps the loop of lines 95-101 computes, in
`itertools.combinations` order. -/
def overlapPairs (users : List UserListeningData) : List PairOverlap :=
  (combinations2 users).map (fun p => compute_pair_overlap p.1 p.2)

/-- The score half of one iteration of the pairwise loop (lines 97-99). -/
def scoreStep (s : List (String × Nat))
    (ab : UserListeningData × UserListeningData) : List (String × Nat) :=
  if 0 < (compute_pair_overlap ab.1 ab.2).total_shared then
    dictIncr
      (dictIncr s ab.1.display_name
        (compute_pair_overlap ab.1 ab.2).total_shared)
      ab.2.display_name (compute_pair_overlap ab.1 ab.2).total_shared
  else s

theorem pairStep_eq (st : Option PairOverlap × List (String × Nat))
    (ab : UserListeningData × UserListeningData) :
    pairStep st ab =
      (chooseStep (fun o => 0 < o.total_shared) PairOverlap.total_shared st.1
        (compute_pair_overlap ab.1 ab.2),
       scoreStep st.2 ab) := by
  obtain ⟨b0, s0⟩ := st
  cases b0 <;>
    by_cases h : 0 < (compute_pair_overlap ab.1 ab.2).total_shared <;>
      simp [pairStep, chooseStep, scoreStep, h]

theorem overlapPass_fst (users : List UserListeningData) :
    (overlapPass users).1 =
      (overlapPairs users).foldl
        (chooseStep (fun o => 0 < o.total_shared) PairOverlap.total_shared)
        none := by
  unfold overlapPass overlapPairs
  rw [foldl_prod_split pairStep
    (fun acc ab => chooseStep (fun o => 0 < o.total_shared)
      PairOverlap.total_shared acc (compute_pair_overlap ab.1 ab.2))
    scoreStep pairStep_eq, List.foldl_map]

theorem overlapPass_snd (users : List UserListeningData) :
    (overlapPass users).2 =
      (combinations2 users).foldl scoreStep (initScores users) := by
  unfold overlapPass
  rw [foldl_prod_split pairStep
    (fun acc ab => chooseStep (fun o => 0 < o.total_shared)
      PairOverlap.total_shared acc (compute_pair_overlap ab.1 ab.2))
    scoreStep pairStep_eq]

theorem combinations2_eq_nil {α : Type} (l : List α) (h : l.length < 2) :
    combinations2 l = [] := by
  match l with
  | [] => rfl
  | [x] => rfl
  | x :: y :: rest => simp [List.length_cons] at h; omega

theorem mem_combinations2 {α : Type} {p : α × α} :
    ∀ {l : List α}, p ∈ combinations2 l → p.1 ∈ l ∧ p.2 ∈ l := by
  intro l
  induction l with
  | nil => intro h; simp [combinations2] at h
  | cons x xs ih =>
      intro h
      rcases List.mem_append.mp h with h | h
      · rcases List.mem_map.mp h with ⟨y, hy, hp⟩
        subst hp
        exact ⟨by simp, by simp [hy]⟩
      · obtain ⟨h1, h2⟩ := ih h
        exact ⟨by simp [h1], by simp [h2]⟩

/-- The per-user overlap scores dict after the pairwise loop (line 93 and
lines 98-99). -/
def overlapScores (users : List UserListeningData) : List (String × Nat) :=
  (overlapPass users).2

theorem compute_group_summary_most (users : List UserListeningData)
    (h : users ≠ []) :
    (compute_group_summary users).most_overlapping = (overlapPass users).1 := by
  unfold compute_group_summary
  rw [if_neg (by simpa [List.isEmpty_iff] using h)]

theorem compute_group_summary_outlier (users : List UserListeningData)
    (h : users ≠ []) :
    (compute_group_summary users).biggest_outlier =
      (if 2 ≤ users.length then
        match minByValue (overlapScores users) with
        | none => none
        | some m =>
            if (overlapScores users).all
                (fun p => p.2 == counterGet (overlapScores users) m.1) then
              none
            else some m.1
      else none) := by
  unfold compute_group_summary
  rw [if_neg (by simpa [List.isEmpty_iff] using h)]
  rfl

theorem compute_group_summary_gem (users : List UserListeningData)
    (h : users ≠ []) :
    (compute_group_summary users).hidden_gem =
      (popAccumulate users).track_plays.foldl
        (gemStep (popAccumulate users).track_counter) none := by
  unfold compute_group_summary
  rw [if_neg (by simpa [List.isEmpty_iff] using h)]

theorem compute_group_summary_count (users : List UserListeningData) :
    (compute_group_summary users).user_count = users.length := by
  by_cases h : users = []
  · subst h; rfl
  · unfold compute_group_summary
    rw [if_neg (by simpa [List.isEmpty_iff] using h)]

/-- Claim C1: `most_overlapping` is the PairOverlap with the highest
`total_shared` among the pairwise overlaps enumerated in input combinations
order; it is `none` exactly when fewer than 2 profiles are given or no pair
overlaps; on ties the first-seen pair is kept (every pair listed before the
winner has strictly smaller `total_shared`). -/
theorem most_overlapping_correct (users : List UserListeningData) :
    ((compute_group_summary users).most_overlapping = none ↔
      (users.length < 2 ∨ ∀ o ∈ overlapPairs users, o.total_shared = 0))
    ∧ ∀ b, (compute_group_summary users).most_overlapping = some b →
        0 < b.total_shared ∧
        (∀ o ∈ overlapPairs users, o.total_shared ≤ b.total_shared) ∧
        ∃ l₁ l₂, overlapPairs users = l₁ ++ b :: l₂ ∧
          ∀ o ∈ l₁, o.total_shared < b.total_shared := by
  by_cases hne : users = []
  · subst hne
    refine ⟨?_, ?_⟩
    · simp [compute_group_summary, overlapPairs, combinations2]
    · intro b hb
      simp [compute_group_summary] at hb
  · rw [compute_group_summary_most users hne, overlapPass_fst]
    refine ⟨?_, ?_⟩
    · rw [chooseFold_none_iff]
      constructor
      · intro h; right; intro o ho
        exact Nat.eq_zero_of_not_pos (h o ho)
      · intro h o ho
        rcases h with h | h
        · rw [overlapPairs, combinations2_eq_nil users h] at ho
          simp at ho
        · rw [h o ho]; exact lt_irrefl 0
    · intro b hb
      obtain ⟨hcb, hmax, l₁, l₂, hdec, hstrict⟩ :=
        chooseFold_some _ _ _ _ hb
      refine ⟨hcb, ?_, l₁, l₂, hdec, ?_⟩
      · intro o ho
        rcases Nat.eq_zero_or_pos o.total_shared with h0 | hpos
        · rw [h0]; exact Nat.zero_le _
        · exact hmax o ho hpos
      · intro o ho
        rcases Nat.eq_zero_or_pos o.total_shared with h0 | hpos
        · rw [h0]; exact hcb
        · exact hstrict o ho hpos

def demoAlice : UserListeningData :=
  ⟨"Alice", ["Radiohead", "Bjork", "Portishead"], [], []⟩

def demoBob : UserListeningData :=
  ⟨"Bob", ["Radiohead", "Bjork", "Tool"], [], []⟩

def demoPair : PairOverlap :=
  ⟨"Alice", "Bob", ["Radiohead", "Bjork"], [], []⟩

/-- Witness for C1 at the spec's own scenario: Alice and Bob share
Radiohead and Bjork. -/
theorem most_overlapping_correct_witness :
    0 < demoPair.total_shared ∧
    (∀ o ∈ overlapPairs [demoAlice, demoBob],
      o.total_shared ≤ demoPair.total_shared) ∧
    ∃ l₁ l₂, overlapPairs [demoAlice, demoBob] = l₁ ++ demoPair :: l₂ ∧
      ∀ o ∈ l₁, o.total_shared < demoPair.total_shared :=
  (most_overlapping_correct [demoAlice, demoBob]).2 demoPair (by decide)

/-! ### Association-list lemmas -/

theorem lookup?_cons {K V : Type} [DecidableEq K] (p : K × V) (d : List (K × V))
    (k : K) :
    lookup? (p :: d) k = if p.1 = k then some p.2 else lookup? d k := by
  by_cases h : p.1 = k <;> simp [lookup?, List.find?_cons, h]

theorem counterGet_cons {K : Type} [DecidableEq K] (p : K × Nat)
    (d : List (K × Nat)) (k : K) :
    counterGet (p :: d) k = if p.1 = k then p.2 else counterGet d k := by
  by_cases h : p.1 = k <;> simp [counterGet, lookup?_cons, h]

theorem keys_dictIncr {K : Type} [DecidableEq K] (d : List (K × Nat)) (k : K)
    (n : Nat) : (dictIncr d k n).map Prod.fst = d.map Prod.fst := by
  induction d with
  | nil => rfl
  | cons p d ih =>
      by_cases h : p.1 = k <;> simp [dictIncr, h] at ih ⊢ <;> exact ih

theorem counterGet_dictIncr {K : Type} [DecidableEq K] (d : List (K × Nat))
    (k k' : K) (n : Nat) :
    counterGet (dictIncr d k n) k' =
      counterGet d k' + (if k' = k ∧ k' ∈ d.map Prod.fst then n else 0) := by
  induction d with
  | nil => simp [dictIncr, counterGet, lookup?]
  | cons p d ih =>
      by_cases hpk : p.1 = k
      · have hstep : dictIncr (p :: d) k n = (p.1, p.2 + n) :: dictIncr d k n := by
          simp [dictIncr, hpk]
        rw [hstep, counterGet_cons, counterGet_cons]
        by_cases hpk' : p.1 = k'
        · have hk : k' = k := by rw [← hpk', hpk]
          rw [if_pos hpk', if_pos hpk',
            if_pos (⟨hk, by simp [List.map_cons, ← hpk']⟩ :
              k' = k ∧ k' ∈ (p :: d).map Prod.fst)]
        · rw [if_neg hpk', if_neg hpk', ih]
          have hcond : (k' = k ∧ k' ∈ d.map Prod.fst) ↔
              (k' = k ∧ k' ∈ (p :: d).map Prod.fst) := by
            constructor
            · rintro ⟨h1, h2⟩; exact ⟨h1, by simp [h2]⟩
            · rintro ⟨h1, h2⟩
              refine ⟨h1, ?_⟩
              rcases (by simpa using h2 : k' = p.1 ∨ k' ∈ d.map Prod.fst) with
                h | h
              · exact absurd h.symm hpk'
              · exact h
          rw [if_congr hcond rfl rfl]
      · have hstep : dictIncr (p :: d) k n = p :: dictIncr d k n := by
          have : (fun q : K × Nat => if q.1 = k then (q.1, q.2 + n) else q) p
              = p := by simp [hpk]
          simp [dictIncr, this]
        rw [hstep, counterGet_cons, counterGet_cons]
        by_cases hpk' : p.1 = k'
        · have hcond : ¬(k' = k ∧ k' ∈ (p :: d).map Prod.fst) := by
            rintro ⟨h1, _⟩
            exact hpk (hpk'.trans h1)
          rw [if_pos hpk', if_pos hpk', if_neg hcond]
          rfl
        · rw [if_neg hpk', if_neg hpk', ih]
          have hcond : (k' = k ∧ k' ∈ d.map Prod.fst) ↔
              (k' = k ∧ k' ∈ (p :: d).map Prod.fst) := by
            constructor
            · rintro ⟨h1, h2⟩; exact ⟨h1, by simp [h2]⟩
            · rintro ⟨h1, h2⟩
              refine ⟨h1, ?_⟩
              rcases (by simpa using h2 : k' = p.1 ∨ k' ∈ d.map Prod.fst) with
                h | h
              · exact absurd h.symm hpk'
              · exact h
          rw [if_congr hcond rfl rfl]

theorem containsKey_iff {K V : Type} [DecidableEq K] (d : List (K × V))
    (k : K) : containsKey d k = true ↔ k ∈ d.map Prod.fst := by
  induction d with
  | nil => simp [containsKey, lookup?]
  | cons p d ih =>
      by_cases h : p.1 = k
      · simp [containsKey, lookup?_cons, h]
      · have h' : ¬k = p.1 := fun he => h he.symm
        rw [show containsKey (p :: d) k = containsKey d k from by
          simp [containsKey, lookup?_cons, h]]
        rw [ih]
        simp [h']

theorem keys_dictInsert {K V : Type} [DecidableEq K] (d : List (K × V))
    (k : K) (v : V) :
    (dictInsert d k v).map Prod.fst =
      if containsKey d k then d.map Prod.fst else d.map Prod.fst ++ [k] := by
  unfold dictInsert
  by_cases h : containsKey d k
  · rw [if_pos h, if_pos h, List.map_map]
    apply List.map_congr_left
    intro p hp
    by_cases hpk : p.1 = k <;> simp [hpk]
  · rw [if_neg h, if_neg h]
    simp

theorem keys_dictInsert_nodup {K V : Type} [DecidableEq K]
    (d : List (K × V)) (k : K) (v : V) (h : (d.map Prod.fst).Nodup) :
    ((dictInsert d k v).map Prod.fst).Nodup := by
  rw [keys_dictInsert]
  by_cases hc : containsKey d k
  · rw [if_pos hc]; exact h
  · rw [if_neg hc]
    have hk : k ∉ d.map Prod.fst := fun hm => hc ((containsKey_iff d k).mpr hm)
    simp [List.nodup_append, h, hk]

theorem mem_keys_dictInsert {K V : Type} [DecidableEq K] (d : List (K × V))
    (k k' : K) (v : V) :
    k' ∈ (dictInsert d k v).map Prod.fst ↔
      (k' ∈ d.map Prod.fst ∨ k' = k) := by
  rw [keys_dictInsert]
  by_cases hc : containsKey d k
  · rw [if_pos hc]
    constructor
    · exact Or.inl
    · rintro (h | h)
      · exact h
      · subst h; exact (containsKey_iff d k').mp hc
  · rw [if_neg hc]; simp [List.mem_append]

theorem vals_dictInsert_zero {K : Type} [DecidableEq K] (d : List (K × Nat))
    (k : K) (h : ∀ p ∈ d, p.2 = 0) :
    ∀ p ∈ dictInsert d k 0, p.2 = 0 := by
  intro p hp
  unfold dictInsert at hp
  by_cases hc : containsKey d k
  · rw [if_pos hc] at hp
    rcases List.mem_map.mp hp with ⟨q, hq, he⟩
    by_cases hqk : q.1 = k
    · rw [if_pos hqk] at he; rw [← he]
    · rw [if_neg hqk] at he; rw [← he]; exact h q hq
  · rw [if_neg hc] at hp
    rcases List.mem_append.mp hp with hp | hp
    · exact h p hp
    · simp at hp; rw [hp]

theorem initScoresFold_vals (users : List UserListeningData) :
    ∀ (d : List (String × Nat)), (∀ p ∈ d, p.2 = 0) →
      ∀ p ∈ users.foldl (fun d u => dictInsert d u.display_name 0) d,
        p.2 = 0 := by
  induction users with
  | nil => intro d h; exact h
  | cons u us ih =>
      intro d h
      exact ih _ (vals_dictInsert_zero d u.display_name h)

theorem initScoresFold_keys (users : List UserListeningData) :
    ∀ (d : List (String × Nat)) (n : String),
      n ∈ (users.foldl (fun d u => dictInsert d u.display_name 0) d).map
        Prod.fst ↔
      (n ∈ d.map Prod.fst ∨ n ∈ users.map (fun u => u.display_name)) := by
  induction users with
  | nil => intro d n; simp
  | cons u us ih =>
      intro d n
      rw [List.foldl_cons, ih, mem_keys_dictInsert]
      simp [List.mem_cons]
      tauto

theorem initScoresFold_nodup (users : List UserListeningData) :
    ∀ (d : List (String × Nat)), (d.map Prod.fst).Nodup →
      ((users.foldl (fun d u => dictInsert d u.display_name 0) d).map
        Prod.fst).Nodup := by
  induction users with
  | nil => intro d h; exact h
  | cons u us ih =>
      intro d h
      exact ih _ (keys_dictInsert_nodup d u.display_name 0 h)

theorem mem_keys_initScores (users : List UserListeningData) (n : String) :
    n ∈ (initScores users).map Prod.fst ↔
      n ∈ users.map (fun u => u.display_name) := by
  unfold initScores
  rw [initScoresFold_keys users [] n]
  simp

theorem keys_initScores_nodup (users : List UserListeningData) :
    ((initScores users).map Prod.fst).Nodup :=
  initScoresFold_nodup users [] (by simp)

theorem counterGet_eq_zero {K : Type} [DecidableEq K] (d : List (K × Nat))
    (h : ∀ p ∈ d, p.2 = 0) (k : K) : counterGet d k = 0 := by
  unfold counterGet lookup?
  cases hf : d.find? (fun p => decide (p.1 = k)) with
  | none => rfl
  | some p => simp [h p (List.mem_of_find?_eq_some hf)]

theorem counterGet_of_mem_nodup {K : Type} [DecidableEq K]
    (d : List (K × Nat)) (k : K) (v : Nat)
    (hnd : (d.map Prod.fst).Nodup) (hmem : (k, v) ∈ d) :
    counterGet d k = v := by
  induction d with
  | nil => simp at hmem
  | cons p d ih =>
      have hnd' : (p.1 :: d.map Prod.fst).Nodup := by simpa using hnd
      rcases List.mem_cons.mp hmem with he | hm
      · rw [counterGet_cons, ← he]
        simp
      · rw [counterGet_cons]
        have hk : k ∈ d.map Prod.fst := List.mem_map.mpr ⟨(k, v), hm, rfl⟩
        have hp : p.1 ≠ k := by
          intro he
          exact (List.nodup_cons.mp hnd').1 (he ▸ hk)
        rw [if_neg hp]
        exact ih (by simpa using (List.nodup_cons.mp hnd').2) hm

/-! ### The accumulated per-user overlap scores -/

/-- The amount lines 98-99 add to display name `n`'s score for one pair: a
pair with a matching name contributes its `total_shared` once per matching
side (twice when both profiles carry the name). -/
def scoreContrib (n : String) (ab : UserListeningData × UserListeningData) :
    Nat :=
  (if ab.1.display_name = n then
    (compute_pair_overlap ab.1 ab.2).total_shared else 0) +
  (if ab.2.display_name = n then
    (compute_pair_overlap ab.1 ab.2).total_shared else 0)

/-- Sum of `total_shared` over every pair a display name participates in. -/
def scoreSum (users : List UserListeningData) (n : String) : Nat :=
  ((combinations2 users).map (scoreContrib n)).sum

theorem keys_scoreStep (s : List (String × Nat))
    (ab : UserListeningData × UserListeningData) :
    (scoreStep s ab).map Prod.fst = s.map Prod.fst := by
  unfold scoreStep
  by_cases h : 0 < (compute_pair_overlap ab.1 ab.2).total_shared
  · simp only [if_pos h, keys_dictIncr]
  · simp only [if_neg h]

theorem counterGet_scoreStep (s : List (String × Nat))
    (ab : UserListeningData × UserListeningData) (n : String)
    (ha : ab.1.display_name ∈ s.map Prod.fst)
    (hb : ab.2.display_name ∈ s.map Prod.fst) :
    counterGet (scoreStep s ab) n = counterGet s n + scoreContrib n ab := by
  unfold scoreStep scoreContrib
  set t := (compute_pair_overlap ab.1 ab.2).total_shared with ht
  by_cases h : 0 < t
  · rw [if_pos h, counterGet_dictIncr, keys_dictIncr, counterGet_dictIncr]
    have e1 : (if n = ab.1.display_name ∧ n ∈ s.map Prod.fst then t else 0) =
        (if ab.1.display_name = n then t else 0) := by
      by_cases hna : ab.1.display_name = n
      · rw [if_pos ⟨hna.symm, hna ▸ ha⟩, if_pos hna]
      · rw [if_neg (fun hc => hna hc.1.symm), if_neg hna]
    have e2 : (if n = ab.2.display_name ∧ n ∈ s.map Prod.fst then t else 0) =
        (if ab.2.display_name = n then t else 0) := by
      by_cases hnb : ab.2.display_name = n
      · rw [if_pos ⟨hnb.symm, hnb ▸ hb⟩, if_pos hnb]
      · rw [if_neg (fun hc => hnb hc.1.symm), if_neg hnb]
    rw [e1, e2]
    omega
  · rw [if_neg h]
    have ht0 : t = 0 := Nat.eq_zero_of_not_pos h
    rw [ht0]
    simp

theorem keys_scoresFold (ps : List (UserListeningData × UserListeningData)) :
    ∀ s, ((ps.foldl scoreStep s).map Prod.fst) = s.map Prod.fst := by
  induction ps with
  | nil => intro s; rfl
  | cons ab ps ih =>
      intro s
      rw [List.foldl_cons, ih, keys_scoreStep]

theorem counterGet_scoresFold
    (ps : List (UserListeningData × UserListeningData)) :
    ∀ (s : List (String × Nat)) (n : String),
      (∀ ab ∈ ps, ab.1.display_name ∈ s.map Prod.fst ∧
        ab.2.display_name ∈ s.map Prod.fst) →
      counterGet (ps.foldl scoreStep s) n =
        counterGet s n + (ps.map (scoreContrib n)).sum := by
  induction ps with
  | nil => intro s n h; simp
  | cons ab ps ih =>
      intro s n h
      rw [List.foldl_cons]
      have hkeys := keys_scoreStep s ab
      rw [ih (scoreStep s ab) n
        (fun x hx => by rw [hkeys]; exact h x (by simp [hx]))]
      rw [counterGet_scoreStep s ab n (h ab (by simp)).1 (h ab (by simp)).2]
      simp only [List.map_cons, List.sum_cons]
      omega

theorem overlapScores_keys (users : List UserListeningData) :
    (overlapScores users).map Prod.fst = (initScores users).map Prod.fst := by
  unfold overlapScores
  rw [overlapPass_snd]
  exact keys_scoresFold _ _

theorem overlapScores_get (users : List UserListeningData) (n : String) :
    counterGet (overlapScores users) n = scoreSum users n := by
  unfold overlapScores scoreSum
  rw [overlapPass_snd]
  rw [counterGet_scoresFold _ _ _ ?hmem]
  case hmem =>
    intro ab hab
    obtain ⟨h1, h2⟩ := mem_combinations2 hab
    constructor
    · rw [mem_keys_initScores]
      exact List.mem_map.mpr ⟨ab.1, h1, rfl⟩
    · rw [mem_keys_initScores]
      exact List.mem_map.mpr ⟨ab.2, h2, rfl⟩
  rw [counterGet_eq_zero (initScores users)
    (initScoresFold_vals users [] (by simp))]
  simp

/-! ### Python min over the scores dict -/

theorem minFold_some (d : List (String × Nat)) :
    ∀ q, ∃ r, d.foldl minStep (some q) = some r ∧ (r = q ∨ r ∈ d) ∧
      r.2 ≤ q.2 ∧ ∀ p ∈ d, r.2 ≤ p.2 := by
  induction d with
  | nil => intro q; exact ⟨q, rfl, Or.inl rfl, le_refl _, by simp⟩
  | cons p d ih =>
      intro q
      rw [List.foldl_cons]
      by_cases hlt : p.2 < q.2
      · rw [show minStep (some q) p = some p from by simp [minStep, hlt]]
        obtain ⟨r, h1, h2, h3, h4⟩ := ih p
        refine ⟨r, h1, ?_, le_of_lt (lt_of_le_of_lt h3 hlt), ?_⟩
        · rcases h2 with h | h
          · exact Or.inr (by simp [h])
          · exact Or.inr (by simp [h])
        · intro x hx
          rcases List.mem_cons.mp hx with he | hm
          · rw [he]; exact h3
          · exact h4 x hm
      · rw [show minStep (some q) p = some q from by simp [minStep, hlt]]
        obtain ⟨r, h1, h2, h3, h4⟩ := ih q
        refine ⟨r, h1, ?_, h3, ?_⟩
        · rcases h2 with h | h
          · exact Or.inl h
          · exact Or.inr (by simp [h])
        · intro x hx
          rcases List.mem_cons.mp hx with he | hm
          · rw [he]; exact le_trans h3 (le_of_not_lt hlt)
          · exact h4 x hm

theorem minByValue_spec (d : List (String × Nat)) (h : d ≠ []) :
    ∃ m, minByValue d = some m ∧ m ∈ d ∧ ∀ p ∈ d, m.2 ≤ p.2 := by
  match d, h with
  | p :: rest, _ =>
      unfold minByValue
      rw [List.foldl_cons, show minStep none p = some p from rfl]
      obtain ⟨r, h1, h2, h3, h4⟩ := minFold_some rest p
      refine ⟨r, h1, ?_, ?_⟩
      · rcases h2 with h | h
        · simp [h]
        · simp [h]
      · intro x hx
        rcases List.mem_cons.mp hx with he | hm
        · rw [he]; exact h3
        · exact h4 x hm

/-- Claim C2: for N≥2 profiles `biggest_outlier` carries a display name of
minimal accumulated score, where a name's accumulated score is the sum of
`total_shared` over every pair it participates in; it is `none` for N<2 and
`none` exactly when all accumulated scores are equal. -/
theorem biggest_outlier_correct (users : List UserListeningData) :
    (users.length < 2 → (compute_group_summary users).biggest_outlier = none)
    ∧ (2 ≤ users.length →
        (((compute_group_summary users).biggest_outlier = none ↔
          ∀ p ∈ overlapScores users, ∀ q ∈ overlapScores users, p.2 = q.2)
        ∧ ∀ n, (compute_group_summary users).biggest_outlier = some n →
            ∃ v, (n, v) ∈ overlapScores users ∧
              ∀ p ∈ overlapScores users, v ≤ p.2))
    ∧ ∀ n v, (n, v) ∈ overlapScores users → v = scoreSum users n := by
  have hnd : ((overlapScores users).map Prod.fst).Nodup := by
    rw [overlapScores_keys]; exact keys_initScores_nodup users
  have hpart3 : ∀ n v, (n, v) ∈ overlapScores users → v = scoreSum users n := by
    intro n v hmem
    rw [← overlapScores_get users n]
    exact (counterGet_of_mem_nodup _ n v hnd hmem).symm
  refine ⟨?_, ?_, hpart3⟩
  · intro hlt
    by_cases hne : users = []
    · subst hne; rfl
    · rw [compute_group_summary_outlier users hne, if_neg (by omega)]
  · intro hlen
    have hne : users ≠ [] := by
      intro he; rw [he] at hlen; simp at hlen
    have hscne : overlapScores users ≠ [] := by
      obtain ⟨u, us, he⟩ : ∃ u us, users = u :: us := by
        match users, hne with
        | u :: us, _ => exact ⟨u, us, rfl⟩
      have hu : u.display_name ∈ (overlapScores users).map Prod.fst := by
        rw [overlapScores_keys, mem_keys_initScores, he]; simp
      intro h0; rw [h0] at hu; simp at hu
    obtain ⟨m, hm, hmem, hmin⟩ := minByValue_spec (overlapScores users) hscne
    have hget : counterGet (overlapScores users) m.1 = m.2 :=
      counterGet_of_mem_nodup _ m.1 m.2 hnd hmem
    have hred : (compute_group_summary users).biggest_outlier =
        if (overlapScores users).all
            (fun p => p.2 == counterGet (overlapScores users) m.1) then none
        else some m.1 := by
      rw [compute_group_summary_outlier users hne, if_pos hlen, hm]
    rw [hred]
    by_cases hall : ∀ p ∈ overlapScores users, p.2 = m.2
    · have hb : (overlapScores users).all
          (fun p => p.2 == counterGet (overlapScores users) m.1) = true := by
        rw [List.all_eq_true]
        intro p hp
        rw [hget]
        simp [hall p hp]
      rw [if_pos hb]
      refine ⟨⟨fun _ p hp q hq => by rw [hall p hp, hall q hq], fun _ => rfl⟩,
        ?_⟩
      intro n hn
      simp at hn
    · have hb : ¬((overlapScores users).all
          (fun p => p.2 == counterGet (overlapScores users) m.1) = true) := by
        rw [List.all_eq_true]
        intro hforall
        apply hall
        intro p hp
        have hbe := hforall p hp
        rw [hget] at hbe
        simpa using hbe
      rw [if_neg hb]
      constructor
      · constructor
        · intro h; simp at h
        · intro hpq
          exfalso
          apply hall
          intro p hp
          exact hpq p hp m hmem
      · intro n hn
        have he : m.1 = n := by injection hn
        subst he
        exact ⟨m.2, hmem, hmin⟩

def demoOutA : UserListeningData := ⟨"Alice", ["X", "Y", "Z"], [], []⟩

def demoOutB : UserListeningData := ⟨"Bob", ["X", "Y", "W"], [], []⟩

def demoOutC : UserListeningData := ⟨"Charlie", ["Q", "R", "S"], [], []⟩

/-- Witness for C2 at the spec's outlier scenario: Alice and Bob share two
artists, Charlie shares nothing, so Charlie has the minimal score. -/
theorem biggest_outlier_correct_witness :
    ∃ v, ("Charlie", v) ∈ overlapScores [demoOutA, demoOutB, demoOutC] ∧
      ∀ p ∈ overlapScores [demoOutA, demoOutB, demoOutC], v ≤ p.2 :=
  ((biggest_outlier_correct [demoOutA, demoOutB, demoOutC]).2.1
    (by decide)).2 "Charlie" (by decide)

/-- Claim C10: the overlap-score accumulator is keyed by display name, so
profiles sharing a display name share one accumulated entry; the keys are
exactly the distinct display names; every accumulated value is the pair sum
for its name (pairs of identically-named profiles counting on both sides);
`user_count` still counts every profile. -/
theorem duplicate_name_scores (users : List UserListeningData) :
    ((overlapScores users).map Prod.fst).Nodup
    ∧ (∀ n, n ∈ (overlapScores users).map Prod.fst ↔
        n ∈ users.map (fun u => u.display_name))
    ∧ (∀ n v, (n, v) ∈ overlapScores users → v = scoreSum users n)
    ∧ (compute_group_summary users).user_count = users.length := by
  have hnd : ((overlapScores users).map Prod.fst).Nodup := by
    rw [overlapScores_keys]; exact keys_initScores_nodup users
  refine ⟨hnd, ?_, ?_, compute_group_summary_count users⟩
  · intro n; rw [overlapScores_keys, mem_keys_initScores]
  · intro n v hmem
    rw [← overlapScores_get users n]
    exact (counterGet_of_mem_nodup _ n v hnd hmem).symm

def demoDupA : UserListeningData := ⟨"A", ["X"], [], []⟩

/-- Witness for C10: two profiles named "A" sharing one artist fold into a
single score entry of 2 (the duplicate-named pair is compared like any
other pair, and both += hits land on the same key). -/
theorem duplicate_name_scores_witness :
    (2 : Nat) = scoreSum [demoDupA, demoDupA] "A" :=
  (duplicate_name_scores [demoDupA, demoDupA]).2.2.1 "A" 2 (by decide)

/-! ### The hidden-gem fold as a first-argmax -/

/-- The triple the hidden-gem loop stores for a track-plays entry. -/
def gemOf (e : (String × String) × (String × Nat)) : String × String × Nat :=
  (e.2.1, pairLabel e.1, e.2.2)

theorem gemFold_eq (tc : List (String × Nat))
    (tp : List ((String × String) × (String × Nat))) :
    ∀ acc : Option ((String × String) × (String × Nat)),
      tp.foldl (gemStep tc) (acc.map gemOf) =
        (tp.foldl
          (chooseStep
            (fun e => counterGet tc (pairLabel e.1) = 1 ∧ 10 < e.2.2)
            (fun e => e.2.2))
          acc).map gemOf := by
  induction tp with
  | nil => intro acc; rfl
  | cons e tp ih =>
      intro acc
      rw [List.foldl_cons, List.foldl_cons]
      have hstep : gemStep tc (acc.map gemOf) e =
          Option.map gemOf
            (chooseStep
              (fun e => counterGet tc (pairLabel e.1) = 1 ∧ 10 < e.2.2)
              (fun e => e.2.2) acc e) := by
        unfold gemStep chooseStep
        by_cases hc : counterGet tc (pairLabel e.1) = 1 ∧ 10 < e.2.2
        · rw [if_pos hc, if_pos hc]
          cases acc with
          | none => rfl
          | some b =>
              by_cases hlt : b.2.2 < e.2.2
              · simp [gemOf, hlt]
              · simp [gemOf, hlt]
        · rw [if_neg hc, if_neg hc]
      rw [hstep, ih]

/-- Claim C3: `hidden_gem`, when present, is the (display name, label,
playcount) of a track-plays entry whose label is tallied exactly once by
the popular-tracks tally and whose playcount is strictly above 10, with the
strictly highest playcount among all such candidates, the first-seen
candidate winning ties; it is `none` exactly when no entry qualifies. -/
theorem hidden_gem_correct (users : List UserListeningData) :
    ((compute_group_summary users).hidden_gem = none ↔
      ∀ e ∈ (popAccumulate users).track_plays,
        ¬(counterGet (popAccumulate users).track_counter (pairLabel e.1) = 1 ∧
          10 < e.2.2))
    ∧ ∀ u t p, (compute_group_summary users).hidden_gem = some (u, t, p) →
        ∃ e l₁ l₂, (popAccumulate users).track_plays = l₁ ++ e :: l₂ ∧
          e.2.1 = u ∧ pairLabel e.1 = t ∧ e.2.2 = p ∧
          counterGet (popAccumulate users).track_counter t = 1 ∧ 10 < p ∧
          (∀ e' ∈ (popAccumulate users).track_plays,
            counterGet (popAccumulate users).track_counter (pairLabel e'.1) =
              1 → 10 < e'.2.2 → e'.2.2 ≤ p) ∧
          ∀ e' ∈ l₁,
            counterGet (popAccumulate users).track_counter (pairLabel e'.1) =
              1 → 10 < e'.2.2 → e'.2.2 < p := by
  by_cases hne : users = []
  · subst hne
    refine ⟨?_, ?_⟩
    · constructor
      · intro _ e he
        simp [popAccumulate] at he
      · intro _; rfl
    · intro u t p hp
      simp [compute_group_summary] at hp
  · have heq : (compute_group_summary users).hidden_gem =
        ((popAccumulate users).track_plays.foldl
          (chooseStep
            (fun e => counterGet (popAccumulate users).track_counter
              (pairLabel e.1) = 1 ∧ 10 < e.2.2)
            (fun e => e.2.2))
          none).map gemOf := by
      rw [compute_group_summary_gem users hne]
      exact gemFold_eq (popAccumulate users).track_counter
        (popAccumulate users).track_plays none
    rw [heq]
    refine ⟨?_, ?_⟩
    · rw [Option.map_eq_none']
      rw [chooseFold_none_iff]
    · intro u t p hp
      rw [Option.map_eq_some'] at hp
      obtain ⟨e, he, hge⟩ := hp
      obtain ⟨hc, hmax, l₁, l₂, hdec, hstrict⟩ :=
        chooseFold_some _ _ _ _ he
      unfold gemOf at hge
      obtain ⟨h1, h2, h3⟩ : e.2.1 = u ∧ pairLabel e.1 = t ∧ e.2.2 = p := by
        refine ⟨congrArg Prod.fst hge, ?_, ?_⟩
        · exact congrArg (fun x => x.2.1) hge
        · exact congrArg (fun x => x.2.2) hge
      refine ⟨e, l₁, l₂, hdec, h1, h2, h3, ?_, ?_, ?_, ?_⟩
      · rw [← h2]; exact hc.1
      · rw [← h3]; exact hc.2
      · intro e' he' hc1 hc2
        rw [← h3]
        exact hmax e' he' ⟨hc1, hc2⟩
      · intro e' he' hc1 hc2
        rw [← h3]
        exact hstrict e' he' ⟨hc1, hc2⟩

def demoGemA : UserListeningData :=
  ⟨"Alice", [], [],
    [(("Artist A", "Song A"), 15), (("Artist B", "Song B"), 20)]⟩

def demoGemB : UserListeningData :=
  ⟨"Bob", [], [], [(("Artist C", "Song C"), 12)]⟩

/-- Witness for C3 at the repo's own test scenario
(`test_hidden_gem_picks_highest_playcount`): three single-listener tracks
above 10 plays, the one with 20 plays wins. -/
theorem hidden_gem_correct_witness :
    ∃ e l₁ l₂, (popAccumulate [demoGemA, demoGemB]).track_plays =
        l₁ ++ e :: l₂ ∧
      e.2.1 = "Alice" ∧ pairLabel e.1 = "Artist B - Song B" ∧ e.2.2 = 20 ∧
      counterGet (popAccumulate [demoGemA, demoGemB]).track_counter
        "Artist B - Song B" = 1 ∧ 10 < 20 ∧
      (∀ e' ∈ (popAccumulate [demoGemA, demoGemB]).track_plays,
        counterGet (popAccumulate [demoGemA, demoGemB]).track_counter
          (pairLabel e'.1) = 1 → 10 < e'.2.2 → e'.2.2 ≤ 20) ∧
      ∀ e' ∈ l₁,
        counterGet (popAccumulate [demoGemA, demoGemB]).track_counter
          (pairLabel e'.1) = 1 → 10 < e'.2.2 → e'.2.2 < 20 :=
  (hidden_gem_correct [demoGemA, demoGemB]).2 "Alice" "Artist B - Song B" 20
    (by decide)

/-! ### Pairwise overlap as set intersections -/

theorem pyIntersect_toFinset {α : Type} [DecidableEq α] (l l' : List α) :
    (pyIntersect l l').toFinset = l.toFinset ∩ l'.toFinset := by
  ext a
  simp [pyIntersect, List.mem_filter]

theorem pyIntersect_length {α : Type} [DecidableEq α]
    (l l' : List α) (h : l.Nodup) :
    (pyIntersect l l').length = (l.toFinset ∩ l'.toFinset).card := by
  have hnd : (pyIntersect l l').Nodup := h.filter _
  rw [← pyIntersect_toFinset, List.toFinset_card_of_nodup hnd]

/-- Claim C5: `shared_tracks` is the set intersection of the (artist, name)
track keys of the two profiles (playcounts play no role), and
`total_shared` is the unweighted sum of the three shared-set sizes. -/
theorem pair_overlap_correct (a b : UserListeningData) :
    ((compute_pair_overlap a b).shared_tracks.toFinset =
      (a.tracks.map Prod.fst).toFinset ∩ (b.tracks.map Prod.fst).toFinset)
    ∧ (∀ a' b' : UserListeningData,
        a'.tracks.map Prod.fst = a.tracks.map Prod.fst →
        b'.tracks.map Prod.fst = b.tracks.map Prod.fst →
        (compute_pair_overlap a' b').shared_tracks =
          (compute_pair_overlap a b).shared_tracks)
    ∧ ((compute_pair_overlap a b).total_shared =
        (compute_pair_overlap a b).shared_artists.length +
        (compute_pair_overlap a b).shared_albums.length +
        (compute_pair_overlap a b).shared_tracks.length)
    ∧ (a.artists.Nodup → a.albums.Nodup → (a.tracks.map Prod.fst).Nodup →
        (compute_pair_overlap a b).total_shared =
          (a.artists.toFinset ∩ b.artists.toFinset).card +
          (a.albums.toFinset ∩ b.albums.toFinset).card +
          ((a.tracks.map Prod.fst).toFinset ∩
            (b.tracks.map Prod.fst).toFinset).card) := by
  refine ⟨?_, ?_, rfl, ?_⟩
  · exact pyIntersect_toFinset (a.tracks.map Prod.fst) (b.tracks.map Prod.fst)
  · intro a' b' ha hb
    show pyIntersect (a'.tracks.map Prod.fst) (b'.tracks.map Prod.fst) =
      pyIntersect (a.tracks.map Prod.fst) (b.tracks.map Prod.fst)
    rw [ha, hb]
  · intro h1 h2 h3
    show (pyIntersect a.artists b.artists).length +
        (pyIntersect a.albums b.albums).length +
        (pyIntersect (a.tracks.map Prod.fst)
          (b.tracks.map Prod.fst)).length = _
    rw [pyIntersect_length a.artists b.artists h1,
      pyIntersect_length a.albums b.albums h2,
      pyIntersect_length (a.tracks.map Prod.fst) (b.tracks.map Prod.fst) h3]

/-- Witness for C5: Alice's and Bob's shared count equals the sum of the
three intersection cardinalities. -/
theorem pair_overlap_correct_witness :
    (compute_pair_overlap demoAlice demoBob).total_shared =
      (demoAlice.artists.toFinset ∩ demoBob.artists.toFinset).card +
      (demoAlice.albums.toFinset ∩ demoBob.albums.toFinset).card +
      ((demoAlice.tracks.map Prod.fst).toFinset ∩
        (demoBob.tracks.map Prod.fst).toFinset).card :=
  (pair_overlap_correct demoAlice demoBob).2.2.2 (by decide) (by decide)
    (by decide)

/-- Claim C7: the empty profile list produces the all-defaults summary, and
`user_count` is always the number of profiles. -/
theorem empty_summary_correct :
    compute_group_summary [] =
      { most_overlapping := none, biggest_outlier := none,
        popular_artists := [], popular_albums := [], popular_tracks := [],
        hidden_gem := none, user_count := 0 }
    ∧ ∀ users : List UserListeningData,
        (compute_group_summary users).user_count = users.length :=
  ⟨rfl, compute_group_summary_count⟩

/-- Claim C9: two distinct track keys whose `"{artist} - {name}"` labels
coincide are tallied as one item: their listener counts merge in
`popular_tracks`, and the single-profile playcount-15 track loses
hidden-gem candidacy because the merged label counts two listeners. -/
theorem label_collision_merges :
    pairLabel ("A - B", "C") = pairLabel ("A", "B - C")
    ∧ decide ((("A - B", "C") : String × String) = ("A", "B - C")) = false
    ∧ (compute_group_summary
        [⟨"A", [], [], [(("A - B", "C"), 15)]⟩,
         ⟨"B", [], [], [(("A", "B - C"), 3)]⟩]).popular_tracks =
        [("A - B - C", 2)]
    ∧ (compute_group_summary
        [⟨"A", [], [], [(("A - B", "C"), 15)]⟩,
         ⟨"B", [], [], [(("A", "B - C"), 3)]⟩]).hidden_gem = none :=
  ⟨by decide, by decide, by decide, by decide⟩

/-- Claim C4 (documented divergence): `compute_group_summary` fills the
popular lists with `(label, listener_count)` pairs, not
`(label, listener_name_list)` pairs; at the input of the repository's own
test `test_includes_popular` the artist entry is `("Radiohead", 2)`, while
that test and `formatters/summary_formatter.py` expect the listener names. -/
theorem popular_artists_carry_counts :
    (compute_group_summary
      [⟨"A", ["Radiohead", "Bjork"], [], []⟩,
       ⟨"B", ["Radiohead", "Tool"], [], []⟩]).popular_artists =
      [("Radiohead", 2)] := by decide

/-! ### Extractor: later duplicate keys win -/

theorem option_none_or {α : Type} (o : Option α) :
    (none : Option α).or o = o := rfl

theorem option_some_or {α : Type} (a : α) (o : Option α) :
    (some a).or o = some a := rfl

/-- One step of scanning a fetched track list for the playcount a key ends
up with: a later occurrence overrides an earlier one. -/
def lastStep (k : String × String) (acc : Option Nat) (t : TrackModel) :
    Option Nat :=
  if (t.artist, t.name) = k then some t.playcount else acc

/-- The playcount of the last occurrence of key `k` in a fetched track
list, if any. -/
def lastPlaycount (ts : List TrackModel) (k : String × String) : Option Nat :=
  ts.foldl (lastStep k) none

theorem lastPlaycount_acc (k : String × String) (ts : List TrackModel) :
    ∀ acc, ts.foldl (lastStep k) acc = (lastPlaycount ts k).or acc := by
  induction ts with
  | nil => intro acc; rfl
  | cons t ts ih =>
      intro acc
      rw [List.foldl_cons, ih (lastStep k acc t)]
      have hr : lastPlaycount (t :: ts) k =
          (lastPlaycount ts k).or (lastStep k none t) := by
        unfold lastPlaycount
        rw [List.foldl_cons, ih (lastStep k none t)]
        rfl
      rw [hr]
      cases hl : lastPlaycount ts k with
      | some v => rfl
      | none =>
          unfold lastStep
          by_cases hc : (t.artist, t.name) = k
          · simp [hc, option_none_or, option_some_or]
          · simp [hc, option_none_or]

theorem lookup?_map_update {K V : Type} [DecidableEq K] (d : List (K × V))
    (k : K) (v : V) (k' : K) :
    lookup? (d.map (fun p => if p.1 = k then (p.1, v) else p)) k' =
      if k' = k then (lookup? d k).map (fun _ => v) else lookup? d k' := by
  induction d with
  | nil => by_cases h : k' = k <;> simp [lookup?, h]
  | cons p d ih =>
      have hkey : ((if p.1 = k then (p.1, v) else p) : K × V).1 = p.1 := by
        by_cases h : p.1 = k <;> simp [h]
      rw [List.map_cons, lookup?_cons, hkey]
      by_cases hpk' : p.1 = k'
      · rw [if_pos hpk']
        by_cases hpk : p.1 = k
        · have hk'k : k' = k := by rw [← hpk', hpk]
          rw [if_pos hk'k,
            show ((if p.1 = k then (p.1, v) else p) : K × V).2 = v from by
              simp [hpk],
            lookup?_cons, if_pos hpk]
          rfl
        · have hk'k : ¬k' = k := fun h => hpk (hpk'.trans h)
          rw [if_neg hk'k,
            show ((if p.1 = k then (p.1, v) else p) : K × V).2 = p.2 from by
              simp [hpk],
            lookup?_cons, if_pos hpk']
      · rw [if_neg hpk', ih]
        by_cases hk'k : k' = k
        · rw [if_pos hk'k, if_pos hk'k]
          have hpk : ¬p.1 = k := fun h => hpk' (h.trans hk'k.symm)
          rw [lookup?_cons, if_neg hpk]
        · rw [if_neg hk'k, if_neg hk'k, lookup?_cons, if_neg hpk']

theorem lookup?_dictInsert {K V : Type} [DecidableEq K] (d : List (K × V))
    (k : K) (v : V) (k' : K) :
    lookup? (dictInsert d k v) k' =
      if k' = k then some v else lookup? d k' := by
  unfold dictInsert
  by_cases hc : containsKey d k
  · rw [if_pos hc, lookup?_map_update]
    by_cases hk : k' = k
    · rw [if_pos hk, if_pos hk]
      obtain ⟨w, hw⟩ := Option.isSome_iff_exists.mp hc
      rw [hw]
      rfl
    · rw [if_neg hk, if_neg hk]
  · rw [if_neg hc]
    unfold lookup?
    rw [List.find?_append]
    by_cases hk : k' = k
    · subst hk
      have hnone : d.find? (fun p => decide (p.1 = k')) = none := by
        cases hf : d.find? (fun p => decide (p.1 = k')) with
        | none => rfl
        | some p =>
            exact absurd (by simp [containsKey, lookup?, hf]) hc
      rw [hnone]
      simp
    · have hsing : ([((k, v) : K × V)].find? (fun p => decide (p.1 = k'))) =
          none := by
        simp only [List.find?_cons, List.find?_nil]
        rw [show (decide (((k, v) : K × V).1 = k')) = false from by
          simp; exact fun h => hk h.symm]
      rw [hsing, if_neg hk]
      cases d.find? (fun p => decide (p.1 = k')) <;> rfl

theorem tracks_build_lookup (ts : List TrackModel) (k : String × String) :
    ∀ d, lookup?
        (ts.foldl (fun d t => dictInsert d (t.artist, t.name) t.playcount) d)
        k = (lastPlaycount ts k).or (lookup? d k) := by
  induction ts with
  | nil => intro d; rfl
  | cons t ts ih =>
      intro d
      rw [List.foldl_cons, ih (dictInsert d (t.artist, t.name) t.playcount),
        lookup?_dictInsert]
      have hr : lastPlaycount (t :: ts) k =
          (lastPlaycount ts k).or (lastStep k none t) := by
        unfold lastPlaycount
        rw [List.foldl_cons, lastPlaycount_acc k ts (lastStep k none t)]
        rfl
      rw [hr]
      cases hl : lastPlaycount ts k with
      | some v => rfl
      | none =>
          unfold lastStep
          by_cases hc : (t.artist, t.name) = k
          · rw [if_pos hc, if_pos hc.symm]
            rfl
          · rw [if_neg hc, if_neg (fun h => hc h.symm)]
            rfl

/-- Claim C6: the extractor is total over any combination of present and
absent inputs; an absent input leaves the corresponding field empty, and a
duplicate (artist, name) key in the fetched track list resolves to the
later occurrence's playcount (dict-comprehension overwrite). -/
theorem extract_correct (dn : String) (ta : Option TopArtistsModel)
    (al : Option TopAlbumsModel) (tt : Option TopTracksModel) :
    (ta = none → (extract_listening_data dn ta al tt).artists = [])
    ∧ (al = none → (extract_listening_data dn ta al tt).albums = [])
    ∧ (tt = none → (extract_listening_data dn ta al tt).tracks = [])
    ∧ (extract_listening_data dn ta al tt).display_name = dn
    ∧ ∀ ttm, tt = some ttm → ∀ k,
        lookup? (extract_listening_data dn ta al tt).tracks k =
          lastPlaycount ttm.tracks k := by
  refine ⟨?_, ?_, ?_, rfl, ?_⟩
  · intro h; subst h; rfl
  · intro h; subst h; rfl
  · intro h; subst h; rfl
  · intro ttm h k
    subst h
    show lookup?
        (ttm.tracks.foldl
          (fun d t => dictInsert d (t.artist, t.name) t.playcount) [])
        k = lastPlaycount ttm.tracks k
    rw [tracks_build_lookup ttm.tracks k []]
    show (lastPlaycount ttm.tracks k).or none = _
    cases lastPlaycount ttm.tracks k <;> rfl

def demoTT : TopTracksModel := ⟨[⟨"Y", "X", 5⟩, ⟨"Y", "X", 9⟩]⟩

/-- Witness for C6: all three inputs absent give empty fields; a duplicated
("X", "Y") key resolves to the later playcount 9. -/
theorem extract_correct_witness :
    (extract_listening_data "A" none none none).artists = [] ∧
    (extract_listening_data "A" none none none).albums = [] ∧
    (extract_listening_data "A" none none none).tracks = [] ∧
    lookup? (extract_listening_data "A" none none (some demoTT)).tracks
        ("X", "Y") =
      lastPlaycount demoTT.tracks ("X", "Y") :=
  ⟨(extract_correct "A" none none none).1 rfl,
   (extract_correct "A" none none none).2.1 rfl,
   (extract_correct "A" none none none).2.2.1 rfl,
   (extract_correct "A" none none (some demoTT)).2.2.2.2 demoTT rfl ("X", "Y")⟩

/-! ### urllib.parse.quote_plus

`quote_plus(s)` UTF-8-encodes `s`, keeps ASCII letters, digits and
`_ . - ~`, turns spaces into `+`, and percent-encodes every other byte
with uppercase hex digits. -/

/-- UTF-8 bytes (as `Nat`s below 256) of one character. -/
def utf8Bytes (c : Char) : List Nat :=
  let n := c.toNat
  if n < 128 then [n]
  else if n < 2048 then [192 + n / 64, 128 + n % 64]
  else if n < 65536 then
    [224 + n / 4096, 128 + (n / 64) % 64, 128 + n % 64]
  else
    [240 + n / 262144, 128 + (n / 4096) % 64, 128 + (n / 64) % 64,
      128 + n % 64]

/-- Uppercase hexadecimal digit for a value below 16. -/
def hexDigit (n : Nat) : Char :=
  if n < 10 then Char.ofNat (48 + n) else Char.ofNat (55 + n)

def percentByte (b : Nat) : String :=
  String.mk ['%', hexDigit (b / 16), hexDigit (b % 16)]

def quotePlusChar (c : Char) : String :=
  if c = ' ' then "+"
  else if c.isAlphanum ∨ c = '_' ∨ c = '.' ∨ c = '-' ∨ c = '~' then
    String.singleton c
  else String.join ((utf8Bytes c).map percentByte)

def quote_plus (s : String) : String :=
  String.join (s.data.map quotePlusChar)

/-- Whether `pat` is an initial segment of the second list. -/
def listStartsWith : List Char → List Char → Bool
  | [], _ => true
  | _ :: _, [] => false
  | p :: ps, c :: cs => p = c && listStartsWith ps cs

/-- Python `str.replace`: every non-overlapping occurrence of `pat`,
scanning left to right, becomes `rep`.  The fuel argument only bounds the
recursion depth; one unit per consumed character always suffices. -/
def replaceFuel (pat rep : List Char) : Nat → List Char → List Char
  | 0, l => l
  | _ + 1, [] => []
  | fuel + 1, c :: rest =>
      if listStartsWith pat (c :: rest) ∧ pat ≠ [] then
        rep ++ replaceFuel pat rep fuel (rest.drop (pat.length - 1))
      else c :: replaceFuel pat rep fuel rest

def pyReplace (s pat rep : String) : String :=
  String.mk (replaceFuel pat.data rep.data s.data.length s.data)

namespace SummaryFormatter

/-!
Embedding of `src/src/formatters/summary_formatter.py`.  That module
imports `GroupSummary` from the summary service but destructures the three
popular lists as `(name, user_list)` pairs and joins `user_list` with
`", "` (lines 35-50), i.e. it consumes summaries whose popular entries
carry listener-name lists — the shape the test suite and the spec treat as
canonical.  The structure below records the fields exactly as the
formatter reads them.
-/

structure GroupSummary where
  most_overlapping : Option PairOverlap
  biggest_outlier : Option String
  popular_artists : List (String × List String)
  popular_albums : List (String × List String)
  popular_tracks : List (String × List String)
  hidden_gem : Option (String × String × Nat)
  user_count : Nat
deriving DecidableEq

/-- The YouTube search link built from a `"{artist} - {name}"` label
(lines 49 and 54). -/
def youtubeUrl (name : String) : String :=
  "https://www.youtube.com/results?search_query=" ++
    quote_plus (pyReplace name " - " " ")

def headerLine : String := "**Weekly Group Summary**\n"

/-- Python `f"{n} artist{'s' if n != 1 else ''}"` and friends
(lines 15, 17, 19). -/
def countNoun (n : Nat) (noun : String) : String :=
  toString n ++ (" " ++ (noun ++ (if n ≠ 1 then "s" else "")))

/-- The non-empty-category parts list of lines 13-20. -/
def sharedDetail (o : PairOverlap) : String :=
  String.intercalate ", "
    ((if o.shared_artists ≠ [] then
        [countNoun o.shared_artists.length "artist"] else []) ++
     (if o.shared_albums ≠ [] then
        [countNoun o.shared_albums.length "album"] else []) ++
     (if o.shared_tracks ≠ [] then
        [countNoun o.shared_tracks.length "track"] else []))

/-- Line 21-24. -/
def overlapLine (o : PairOverlap) : String :=
  "🎵 **" ++ (o.user_a ++ ("** and **" ++ (o.user_b ++
    ("** have the most in common (" ++ (sharedDetail o ++ ")!")))))

/-- Line 26. -/
def noOverlapLine : String :=
  "🎵 Everyone has pretty unique taste — no overlap found!"

def overlapSection (mo : Option PairOverlap) : List String :=
  match mo with
  | some o => [overlapLine o]
  | none => [noOverlapLine]

/-- Lines 29-31. -/
def outlierLine (n : String) : String :=
  "🦄 **" ++ (n ++ "** is the biggest outlier of the group.")

/-- Python `if summary.biggest_outlier:` (line 28) is falsy both for `None`
and for the empty string, so an empty display name produces no line. -/
def outlierSection (bo : Option String) : List String :=
  match bo with
  | some n => if n = "" then [] else [outlierLine n]
  | none => []

/-- Bullet of the artist and album categories (lines 37 and 43). -/
def bulletLine (name : String) (users : List String) : String :=
  "• " ++ (name ++ (" (" ++ (String.intercalate ", " users ++ ")")))

/-- Bullet of the track category, with its link (lines 49-50). -/
def trackBulletLine (name : String) (users : List String) : String :=
  "• [" ++ (name ++ ("](<" ++ (youtubeUrl name ++
    (">) (" ++ (String.intercalate ", " users ++ ")")))))

def artistsHeader : String := "\n🏆 **Group Favorite Artists:**"

def albumsHeader : String := "\n💿 **Group Favorite Albums:**"

def tracksHeader : String := "\n🎶 **Group Favorite Tracks:**"

/-- One popularity block (lines 33-50): nothing at all for an empty
category, otherwise a header followed by the top five bullets. -/
def popSection (header : String) (line : String → List String → String)
    (pp : List (String × List String)) : List String :=
  if pp = [] then []
  else header :: (pp.take 5).map (fun p => line p.1 p.2)

def artistsSection (pa : List (String × List String)) : List String :=
  popSection artistsHeader bulletLine pa

def albumsSection (pal : List (String × List String)) : List String :=
  popSection albumsHeader bulletLine pal

def tracksSection (pt : List (String × List String)) : List String :=
  popSection tracksHeader trackBulletLine pt

/-- Lines 55-58. -/
def gemLine (u t : String) (p : Nat) : String :=
  "\n💎 **Hidden Gem:**\n**" ++ (u ++ ("** has [" ++ (t ++ ("](<" ++
    (youtubeUrl t ++ (">) on repeat (" ++ (toString p ++ " plays)!")))))))

def gemSection (hg : Option (String × String × Nat)) : List String :=
  match hg with
  | some g => [gemLine g.1 g.2.1 g.2.2]
  | none => []

/-- Line 60. -/
def footerLine (n : Nat) : String :=
  "\n---\n*" ++ (toString n ++ " participants this week*")

/-- The `lines` list `format_summary_text` builds (lines 7-60), section by
section in source order. -/
def format_summary_lines (s : GroupSummary) : List String :=
  [headerLine] ++ overlapSection s.most_overlapping ++
    outlierSection s.biggest_outlier ++ artistsSection s.popular_artists ++
    albumsSection s.popular_albums ++ tracksSection s.popular_tracks ++
    gemSection s.hidden_gem ++ [footerLine s.user_count]

/-- Line 62: `"\n".join(lines)`. -/
def format_summary_text (s : GroupSummary) : String :=
  String.intercalate "\n" (format_summary_lines s)

/-! ### Line tags: the first characters identify which block a line is
from -/

theorem string_eq_tag {s t : String} (he : s = t) (n : Nat) :
    s.data.take n = t.data.take n := by rw [he]

theorem take1_of_take2 {l : List Char} {a b : Char} (h : l.take 2 = [a, b]) :
    l.take 1 = [a] := by
  have h2 := congrArg (List.take 1) h
  rw [List.take_take, show min 1 2 = 1 from by decide] at h2
  exact h2

theorem take1_of_take3 {l : List Char} {a b c : Char}
    (h : l.take 3 = [a, b, c]) : l.take 1 = [a] := by
  have h2 := congrArg (List.take 1) h
  rw [List.take_take, show min 1 3 = 1 from by decide] at h2
  exact h2

theorem take2_of_take3 {l : List Char} {a b c : Char}
    (h : l.take 3 = [a, b, c]) : l.take 2 = [a, b] := by
  have h2 := congrArg (List.take 2) h
  rw [List.take_take, show min 2 3 = 2 from by decide] at h2
  exact h2

theorem overlapLine_take3 (o : PairOverlap) :
    (overlapLine o).data.take 3 = ['🎵', ' ', '*'] := by
  unfold overlapLine
  rw [String.data_append]
  rfl

theorem outlierLine_take2 (n : String) :
    (outlierLine n).data.take 2 = ['🦄', ' '] := by
  unfold outlierLine
  rw [String.data_append]
  rfl

theorem bulletLine_take2 (name : String) (users : List String) :
    (bulletLine name users).data.take 2 = ['•', ' '] := by
  unfold bulletLine
  rw [String.data_append]
  rfl

theorem trackBulletLine_take2 (name : String) (users : List String) :
    (trackBulletLine name users).data.take 2 = ['•', ' '] := by
  unfold trackBulletLine
  rw [String.data_append]
  rfl

theorem gemLine_take2 (u t : String) (p : Nat) :
    (gemLine u t p).data.take 2 = ['\n', '💎'] := by
  unfold gemLine
  rw [String.data_append]
  rfl

theorem footerLine_take2 (n : Nat) :
    (footerLine n).data.take 2 = ['\n', '-'] := by
  unfold footerLine
  rw [String.data_append]
  rfl

/-! ### Section membership and tags -/

theorem mem_overlapSection {mo : Option PairOverlap} {l : String}
    (h : l ∈ overlapSection mo) :
    (∃ o, mo = some o ∧ l = overlapLine o) ∨
      (mo = none ∧ l = noOverlapLine) := by
  cases mo with
  | none => right; exact ⟨rfl, by simpa [overlapSection] using h⟩
  | some o => left; exact ⟨o, rfl, by simpa [overlapSection] using h⟩

theorem mem_outlierSection {bo : Option String} {l : String}
    (h : l ∈ outlierSection bo) :
    ∃ n, bo = some n ∧ n ≠ "" ∧ l = outlierLine n := by
  cases bo with
  | none => simp [outlierSection] at h
  | some n =>
      have h' : l ∈ (if n = "" then [] else [outlierLine n]) := h
      by_cases hn : n = ""
      · rw [if_pos hn] at h'; simp at h'
      · rw [if_neg hn] at h'
        exact ⟨n, rfl, hn, by simpa using h'⟩

theorem mem_popSection {header : String}
    {line : String → List String → String}
    {pp : List (String × List String)} {l : String}
    (h : l ∈ popSection header line pp) :
    pp ≠ [] ∧ (l = header ∨ ∃ p ∈ pp.take 5, l = line p.1 p.2) := by
  unfold popSection at h
  by_cases hpp : pp = []
  · rw [if_pos hpp] at h; simp at h
  · rw [if_neg hpp] at h
    refine ⟨hpp, ?_⟩
    rcases List.mem_cons.mp h with h | h
    · exact Or.inl h
    · right
      rcases List.mem_map.mp h with ⟨p, hp, he⟩
      exact ⟨p, hp, he.symm⟩

theorem mem_gemSection {hg : Option (String × String × Nat)} {l : String}
    (h : l ∈ gemSection hg) :
    ∃ g, hg = some g ∧ l = gemLine g.1 g.2.1 g.2.2 := by
  cases hg with
  | none => simp [gemSection] at h
  | some g => exact ⟨g, rfl, by simpa [gemSection] using h⟩

theorem overlapSection_tags (mo : Option PairOverlap) :
    ∀ l ∈ overlapSection mo, l.data.take 2 = ['🎵', ' '] := by
  intro l h
  rcases mem_overlapSection h with ⟨o, _, he⟩ | ⟨_, he⟩
  · rw [he]; exact take2_of_take3 (overlapLine_take3 o)
  · rw [he]; decide

theorem outlierSection_tags (bo : Option String) :
    ∀ l ∈ outlierSection bo, l.data.take 2 = ['🦄', ' '] := by
  intro l h
  rcases mem_outlierSection h with ⟨n, _, _, he⟩
  rw [he]; exact outlierLine_take2 n

theorem popSection_tags {header : String}
    {line : String → List String → String} {ch cb : List Char}
    (hh : header.data.take 2 = ch)
    (hl : ∀ n us, (line n us).data.take 2 = cb)
    (pp : List (String × List String)) :
    ∀ l ∈ popSection header line pp,
      l.data.take 2 = ch ∨ l.data.take 2 = cb := by
  intro l h
  rcases (mem_popSection h).2 with he | ⟨p, _, he⟩
  · rw [he]; exact Or.inl hh
  · rw [he]; exact Or.inr (hl p.1 p.2)

theorem gemSection_tags (hg : Option (String × String × Nat)) :
    ∀ l ∈ gemSection hg, l.data.take 2 = ['\n', '💎'] := by
  intro l h
  rcases mem_gemSection h with ⟨g, _, he⟩
  rw [he]; exact gemLine_take2 g.1 g.2.1 g.2.2

/-- A rendered bullet entry of one of the three popularity blocks. -/
def isBulletLine (l : String) : Bool := l.data.take 1 == ['•']

theorem isBulletLine_false_of_take2 {l : String} {a b : Char}
    (h : l.data.take 2 = [a, b]) (hne : a ≠ '•') : isBulletLine l = false := by
  unfold isBulletLine
  rw [take1_of_take2 h, beq_eq_false_iff_ne]
  intro he
  exact hne (by injection he)

theorem isBulletLine_true_of_take2 {l : String} {b : Char}
    (h : l.data.take 2 = ['•', b]) : isBulletLine l = true := by
  unfold isBulletLine
  rw [take1_of_take2 h]
  rfl

theorem countP_overlapSection (mo : Option PairOverlap) :
    (overlapSection mo).countP isBulletLine = 0 := by
  cases mo with
  | none => decide
  | some o =>
      have hf : isBulletLine (overlapLine o) = false :=
        isBulletLine_false_of_take2 (take2_of_take3 (overlapLine_take3 o))
          (by decide)
      simp [overlapSection, List.countP_cons, hf]

theorem countP_outlierSection (bo : Option String) :
    (outlierSection bo).countP isBulletLine = 0 := by
  cases bo with
  | none => rfl
  | some n =>
      show List.countP isBulletLine (if n = "" then [] else [outlierLine n])
        = 0
      by_cases hn : n = ""
      · rw [if_pos hn]; rfl
      · rw [if_neg hn]
        have hf : isBulletLine (outlierLine n) = false :=
          isBulletLine_false_of_take2 (outlierLine_take2 n) (by decide)
        simp [List.countP_cons, hf]

theorem countP_gemSection (hg : Option (String × String × Nat)) :
    (gemSection hg).countP isBulletLine = 0 := by
  cases hg with
  | none => rfl
  | some g =>
      have hf : isBulletLine (gemLine g.1 g.2.1 g.2.2) = false :=
        isBulletLine_false_of_take2 (gemLine_take2 g.1 g.2.1 g.2.2)
          (by decide)
      simp [gemSection, List.countP_cons, hf]

theorem countP_popSection {header : String}
    {line : String → List String → String}
    (pp : List (String × List String))
    (hh : isBulletLine header = false)
    (hl : ∀ n us, isBulletLine (line n us) = true) :
    (popSection header line pp).countP isBulletLine = min 5 pp.length := by
  unfold popSection
  by_cases hpp : pp = []
  · rw [if_pos hpp, hpp]; rfl
  · rw [if_neg hpp, List.countP_cons, hh]
    rw [List.countP_eq_length.mpr ?_]
    · rw [List.length_map, List.length_take]
      simp
    · intro x hx
      rcases List.mem_map.mp hx with ⟨q, _, he⟩
      rw [← he]
      exact hl q.1 q.2

theorem mem_format_summary_lines {s : GroupSummary} {l : String} :
    l ∈ format_summary_lines s ↔
      (l = headerLine ∨ l ∈ overlapSection s.most_overlapping ∨
       l ∈ outlierSection s.biggest_outlier ∨
       l ∈ artistsSection s.popular_artists ∨
       l ∈ albumsSection s.popular_albums ∨
       l ∈ tracksSection s.popular_tracks ∨
       l ∈ gemSection s.hidden_gem ∨ l = footerLine s.user_count) := by
  unfold format_summary_lines
  simp [List.mem_append]

/-- Claim C8 (amended): the formatter emits the no-overlap sentence exactly
when `most_overlapping` is absent, an outlier line exactly when
`biggest_outlier` is present and non-empty (Python truthiness drops the
empty string), exactly the top five bullets per non-empty popularity
category with listener names inline, a hidden-gem line with its
YouTube-search link exactly when `hidden_gem` is present, omits every
empty popularity category entirely, and the rendered text is the newline
join of these lines. -/
theorem format_summary_correct (s : GroupSummary) :
    (noOverlapLine ∈ format_summary_lines s ↔ s.most_overlapping = none)
    ∧ ((∃ l ∈ format_summary_lines s, l.data.take 1 = ['🦄']) ↔
        ∃ n, s.biggest_outlier = some n ∧ n ≠ "")
    ∧ ((format_summary_lines s).countP isBulletLine =
        min 5 s.popular_artists.length + min 5 s.popular_albums.length +
          min 5 s.popular_tracks.length)
    ∧ (artistsHeader ∈ format_summary_lines s ↔ s.popular_artists ≠ [])
    ∧ (albumsHeader ∈ format_summary_lines s ↔ s.popular_albums ≠ [])
    ∧ (tracksHeader ∈ format_summary_lines s ↔ s.popular_tracks ≠ [])
    ∧ ((∃ l ∈ format_summary_lines s, l.data.take 2 = ['\n', '💎']) ↔
        s.hidden_gem ≠ none)
    ∧ (∀ u t p, s.hidden_gem = some (u, t, p) →
        gemLine u t p ∈ format_summary_lines s)
    ∧ format_summary_text s =
        String.intercalate "\n" (format_summary_lines s) := by
  have hartiststags := popSection_tags
    (by decide : artistsHeader.data.take 2 = ['\n', '🏆'])
    bulletLine_take2 s.popular_artists
  have halbumstags := popSection_tags
    (by decide : albumsHeader.data.take 2 = ['\n', '💿'])
    bulletLine_take2 s.popular_albums
  have htrackstags := popSection_tags
    (by decide : tracksHeader.data.take 2 = ['\n', '🎶'])
    trackBulletLine_take2 s.popular_tracks
  refine ⟨?_, ?_, ?_, ?_, ?_, ?_, ?_, ?_, rfl⟩
  · constructor
    · intro h
      rcases mem_format_summary_lines.mp h with h | h | h | h | h | h | h | h
      · exact absurd h (by decide)
      · rcases mem_overlapSection h with ⟨o, _, he⟩ | ⟨hmo, _⟩
        · have h3 := string_eq_tag he 3
          rw [overlapLine_take3] at h3
          exact absurd h3 (by decide)
        · exact hmo
      · have h2 := outlierSection_tags s.biggest_outlier _ h
        exact absurd h2 (by decide)
      · rcases hartiststags _ h with h2 | h2 <;> exact absurd h2 (by decide)
      · rcases halbumstags _ h with h2 | h2 <;> exact absurd h2 (by decide)
      · rcases htrackstags _ h with h2 | h2 <;> exact absurd h2 (by decide)
      · have h2 := gemSection_tags s.hidden_gem _ h
        exact absurd h2 (by decide)
      · have h2 := string_eq_tag h 2
        rw [footerLine_take2] at h2
        exact absurd h2 (by decide)
    · intro hmo
      rw [mem_format_summary_lines, hmo]
      right; left
      simp [overlapSection]
  · constructor
    · rintro ⟨l, hl, hP⟩
      rcases mem_format_summary_lines.mp hl with h | h | h | h | h | h | h | h
      · rw [h] at hP
        exact absurd hP (by decide)
      · have h1 := take1_of_take2 (overlapSection_tags _ _ h)
        rw [hP] at h1
        exact absurd h1 (by decide)
      · rcases mem_outlierSection h with ⟨n, hbo, hne, _⟩
        exact ⟨n, hbo, hne⟩
      · rcases hartiststags _ h with h2 | h2 <;>
          (have h1 := take1_of_take2 h2; rw [hP] at h1;
           exact absurd h1 (by decide))
      · rcases halbumstags _ h with h2 | h2 <;>
          (have h1 := take1_of_take2 h2; rw [hP] at h1;
           exact absurd h1 (by decide))
      · rcases htrackstags _ h with h2 | h2 <;>
          (have h1 := take1_of_take2 h2; rw [hP] at h1;
           exact absurd h1 (by decide))
      · have h1 := take1_of_take2 (gemSection_tags _ _ h)
        rw [hP] at h1
        exact absurd h1 (by decide)
      · rw [h] at hP
        have h1 := take1_of_take2 (footerLine_take2 s.user_count)
        rw [hP] at h1
        exact absurd h1 (by decide)
    · rintro ⟨n, hbo, hne⟩
      refine ⟨outlierLine n, ?_, take1_of_take2 (outlierLine_take2 n)⟩
      rw [mem_format_summary_lines, hbo]
      right; right; left
      simp [outlierSection, hne]
  · unfold format_summary_lines
    rw [List.countP_append, List.countP_append, List.countP_append,
      List.countP_append, List.countP_append, List.countP_append,
      List.countP_append]
    rw [countP_overlapSection, countP_outlierSection, countP_gemSection]
    rw [show artistsSection s.popular_artists =
        popSection artistsHeader bulletLine s.popular_artists from rfl,
      show albumsSection s.popular_albums =
        popSection albumsHeader bulletLine s.popular_albums from rfl,
      show tracksSection s.popular_tracks =
        popSection tracksHeader trackBulletLine s.popular_tracks from rfl]
    rw [countP_popSection s.popular_artists (by decide)
        (fun n us => isBulletLine_true_of_take2 (bulletLine_take2 n us)),
      countP_popSection s.popular_albums (by decide)
        (fun n us => isBulletLine_true_of_take2 (bulletLine_take2 n us)),
      countP_popSection s.popular_tracks (by decide)
        (fun n us => isBulletLine_true_of_take2 (trackBulletLine_take2 n us))]
    have hh : List.countP isBulletLine [headerLine] = 0 := by decide
    have hf : List.countP isBulletLine [footerLine s.user_count] = 0 := by
      have := isBulletLine_false_of_take2 (footerLine_take2 s.user_count)
        (by decide)
      simp [List.countP_cons, this]
    rw [hh, hf]
    omega
  · constructor
    · intro h
      rcases mem_format_summary_lines.mp h with h | h | h | h | h | h | h | h
      · exact absurd h (by decide)
      · have h2 := overlapSection_tags _ _ h
        exact absurd h2 (by decide)
      · have h2 := outlierSection_tags _ _ h
        exact absurd h2 (by decide)
      · exact (mem_popSection h).1
      · rcases halbumstags _ h with h2 | h2 <;> exact absurd h2 (by decide)
      · rcases htrackstags _ h with h2 | h2 <;> exact absurd h2 (by decide)
      · have h2 := gemSection_tags _ _ h
        exact absurd h2 (by decide)
      · have h2 := string_eq_tag h 2
        rw [footerLine_take2] at h2
        exact absurd h2 (by decide)
    · intro hpa
      rw [mem_format_summary_lines]
      right; right; right; left
      simp [artistsSection, popSection, hpa]
  · constructor
    · intro h
      rcases mem_format_summary_lines.mp h with h | h | h | h | h | h | h | h
      · exact absurd h (by decide)
      · have h2 := overlapSection_tags _ _ h
        exact absurd h2 (by decide)
      · have h2 := outlierSection_tags _ _ h
        exact absurd h2 (by decide)
      · rcases hartiststags _ h with h2 | h2 <;> exact absurd h2 (by decide)
      · exact (mem_popSection h).1
      · rcases htrackstags _ h with h2 | h2 <;> exact absurd h2 (by decide)
      · have h2 := gemSection_tags _ _ h
        exact absurd h2 (by decide)
      · have h2 := string_eq_tag h 2
        rw [footerLine_take2] at h2
        exact absurd h2 (by decide)
    · intro hpa
      rw [mem_format_summary_lines]
      right; right; right; right; left
      simp [albumsSection, popSection, hpa]
  · constructor
    · intro h
      rcases mem_format_summary_lines.mp h with h | h | h | h | h | h | h | h
      · exact absurd h (by decide)
      · have h2 := overlapSection_tags _ _ h
        exact absurd h2 (by decide)
      · have h2 := outlierSection_tags _ _ h
        exact absurd h2 (by decide)
      · rcases hartiststags _ h with h2 | h2 <;> exact absurd h2 (by decide)
      · rcases halbumstags _ h with h2 | h2 <;> exact absurd h2 (by decide)
      · exact (mem_popSection h).1
      · have h2 := gemSection_tags _ _ h
        exact absurd h2 (by decide)
      · have h2 := string_eq_tag h 2
        rw [footerLine_take2] at h2
        exact absurd h2 (by decide)
    · intro hpt
      rw [mem_format_summary_lines]
      right; right; right; right; right; left
      simp [tracksSection, popSection, hpt]
  · constructor
    · rintro ⟨l, hl, hP⟩
      rcases mem_format_summary_lines.mp hl with h | h | h | h | h | h | h | h
      · rw [h] at hP
        exact absurd hP (by decide)
      · have h2 := overlapSection_tags _ _ h
        rw [hP] at h2
        exact absurd h2 (by decide)
      · have h2 := outlierSection_tags _ _ h
        rw [hP] at h2
        exact absurd h2 (by decide)
      · rcases hartiststags _ h with h2 | h2 <;>
          (rw [hP] at h2; exact absurd h2 (by decide))
      · rcases halbumstags _ h with h2 | h2 <;>
          (rw [hP] at h2; exact absurd h2 (by decide))
      · rcases htrackstags _ h with h2 | h2 <;>
          (rw [hP] at h2; exact absurd h2 (by decide))
      · rcases mem_gemSection h with ⟨g, hg, _⟩
        rw [hg]
        simp
      · rw [h] at hP
        have h2 := footerLine_take2 s.user_count
        rw [hP] at h2
        exact absurd h2 (by decide)
    · intro hne
      obtain ⟨g, hg⟩ := Option.ne_none_iff_exists'.mp hne
      refine ⟨gemLine g.1 g.2.1 g.2.2, ?_, gemLine_take2 g.1 g.2.1 g.2.2⟩
      rw [mem_format_summary_lines, hg]
      right; right; right; right; right; right; left
      simp [gemSection]
  · intro u t p hg
    rw [mem_format_summary_lines, hg]
    right; right; right; right; right; right; left
    simp [gemSection]

/-- A summary whose outlier field holds the empty string. -/
def emptyNameSummary : GroupSummary :=
  ⟨none, some "", [], [], [], none, 0⟩

/-- A line is an outlier line exactly when it starts with the unicorn
marker. -/
def outlierMarked (l : String) : Bool := l.data.take 1 == ['🦄']

/-- Counterexample to C8 as stated: `biggest_outlier` is present (the empty
string), yet no line of the output is an outlier line — Python's
`if summary.biggest_outlier:` treats the empty string as falsy. -/
theorem outlier_line_missing_for_empty_name :
    emptyNameSummary.biggest_outlier = some "" ∧
    (format_summary_lines emptyNameSummary).countP outlierMarked = 0 :=
  ⟨rfl, by decide⟩

/-- A summary exercising the hidden-gem branch of the formatter. -/
def demoSummary : GroupSummary :=
  ⟨none, some "Charlie", [("Radiohead", ["A", "B"])], [],
    [("Shared - Track", ["A", "B"])],
    some ("Alice", "Obscure Band - Deep Cut", 25), 2⟩

/-- Witness for C8: the hidden-gem line of `demoSummary` is rendered. -/
theorem format_summary_correct_witness :
    gemLine "Alice" "Obscure Band - Deep Cut" 25 ∈
      format_summary_lines demoSummary :=
  (format_summary_correct demoSummary).2.2.2.2.2.2.2.1 "Alice"
    "Obscure Band - Deep Cut" 25 rfl

end SummaryFormatter

end LastCollage
